import Mathlib

/-!
Verification of the pf-runner task-automation engine (pf.py, pf_parser.py):
a shallow embedding of its interpolation, DSL loading, verb execution,
per-host task running, host resolution and sync-command construction,
with theorems settling the specification's claims about them.

Conventions of the embedding:
* Python dicts are association lists in insertion order; `dictSet` mirrors
  `d[k] = v` (overwrite in place, append if new), `lookupA` mirrors `d.get(k)`.
* `os.environ`, the invocation parameters and the task-local env are passed
  explicitly; external process execution is an oracle `String → Nat` giving
  each command line its exit status.
* Machine strings are Lean `String`s; the inputs exercised are ASCII, for
  which Python's `str.strip` / `\w` agree with `String.trim` / `isWordChar`.
-/

namespace Pf

/-- Association-list lookup, first match wins (Python `dict.get` once the
dict is kept with at most one entry per key). -/
def lookupA (l : List (String × String)) (k : String) : Option String :=
  (l.find? (fun p => p.1 == k)).map (fun p => p.2)

/-- Python `d[k] = v`: overwrite the existing entry in place, else append. -/
def dictSet (d : List (String × String)) (k v : String) : List (String × String) :=
  if (d.find? (fun p => p.1 == k)).isSome then
    d.map (fun p => if p.1 == k then (k, v) else p)
  else
    d ++ [(k, v)]

/-- A regex `\w` character (ASCII): letters, digits, underscore. -/
def isWordChar (c : Char) : Bool := c.isAlphanum || c == '_'

/-- The literal characters `\x7b` and `\x7d` used by the `${name}` form. -/
def lbrace : Char := Char.ofNat 123

def rbrace : Char := Char.ofNat 125

/-- The merged mapping built by `_interpolate` (pf.py:55-59):
`merged = dict(os.environ); merged.update(extra_env); merged.update(params)`.
Later updates win, so params shadow the task-local env which shadows the
process environment. -/
def mergedGet (osenv extraEnv params : List (String × String)) (k : String) :
    Option String :=
  lookupA params k <|> lookupA extraEnv k <|> lookupA osenv k

/-- One left-to-right pass of `_VAR_RE.sub(repl, text)` (pf.py:54,63) with
pattern `\$(\w+)|\$\{(\w+)\}`: at a `$` followed by word characters the
maximal word run is the name; otherwise the brace form is tried; a failed
match copies the `$` and the scan resumes at the next character.  A missing
key leaves the matched token unchanged (`merged.get(key, m.group(0))`).
Replacement text is emitted verbatim and never re-scanned, exactly as
`re.sub` does. -/
def interpGo (look : String → Option String) : List Char → List Char
  | [] => []
  | c :: cs =>
    if c = '$' then
      if hw : cs.takeWhile isWordChar = [] then
        match cs with
        | d :: cs2 =>
          if d = lbrace then
            let w2 := cs2.takeWhile isWordChar
            if w2 = [] then '$' :: interpGo look (d :: cs2)
            else
              match h3 : cs2.dropWhile isWordChar with
              | e :: cs4 =>
                if e = rbrace then
                  (match look (String.mk w2) with
                   | some v => v.data
                   | none => '$' :: lbrace :: (w2 ++ [rbrace])) ++ interpGo look cs4
                else '$' :: interpGo look (d :: cs2)
              | [] => '$' :: interpGo look (d :: cs2)
          else '$' :: interpGo look (d :: cs2)
        | [] => ['$']
      else
        (match look (String.mk (cs.takeWhile isWordChar)) with
         | some v => v.data
         | none => '$' :: cs.takeWhile isWordChar) ++
          interpGo look (cs.dropWhile isWordChar)
    else
      c :: interpGo look cs
termination_by l => l.length
decreasing_by
  all_goals simp_wf
  · have h1 : (cs2.dropWhile isWordChar).length ≤ cs2.length :=
      (List.dropWhile_suffix isWordChar).length_le
    rw [h3] at h1
    simp only [List.length_cons] at h1
    omega
  · have h1 : (cs.dropWhile isWordChar).length ≤ cs.length :=
      (List.dropWhile_suffix isWordChar).length_le
    omega

/-- `_interpolate(text, params, extra_env)` (pf.py:55-63), with the ambient
`os.environ` passed explicitly as `osenv`. -/
def _interpolate (osenv : List (String × String)) (text : String)
    (params extraEnv : List (String × String)) : String :=
  String.mk (interpGo (mergedGet osenv extraEnv params) text.data)

/-- Whether `pat` is a prefix of the character list. -/
def startsWithL : List Char → List Char → Bool
  | _, [] => true
  | [], _ :: _ => false
  | c :: cs, p :: ps => c == p && startsWithL cs ps

/-- One scan of Python `str.replace`: replace non-overlapping occurrences of
`pat` left to right, resuming after each replacement.  The fuel argument is
the remaining input length (consumption is at least one character per step),
so `replaceGo pat rep l.length l` is total scanning. -/
def replaceGo (pat rep : List Char) : Nat → List Char → List Char
  | _, [] => []
  | 0, l => l
  | fuel + 1, c :: cs =>
    if startsWithL (c :: cs) pat then
      rep ++ replaceGo pat rep fuel (cs.drop (pat.length - 1))
    else
      c :: replaceGo pat rep fuel cs

/-- Python `s.replace(pat, rep)` for a non-empty pattern (the source only
replaces patterns of the shapes `${name}` and `$name`, never empty). -/
def pyReplace (s pat rep : String) : String :=
  if pat = "" then s else String.mk (replaceGo pat.data rep.data s.data.length s.data)

/-- `PfInterpreter._substitute_vars(text, env)` (pf_parser.py:315-321):
for each binding, in dict order, replace every occurrence of `${name}` and
then of `$name` in the whole working text. -/
def _substitute_vars (text : String) (env : List (String × String)) : String :=
  env.foldl
    (fun result p =>
      pyReplace (pyReplace result ("$\x7b" ++ p.1 ++ "\x7d") p.2) ("$" ++ p.1) p.2)
    text

/-- Split a character list at every occurrence of `sep` (Python
`s.split(sep)` for a one-character separator; also the line splitter). -/
def splitCharGo (sep : Char) : List Char → List Char → List String
  | [], cur => [String.mk cur.reverse]
  | c :: cs, cur =>
    if c = sep then String.mk cur.reverse :: splitCharGo sep cs []
    else splitCharGo sep cs (c :: cur)

def splitOnChar (sep : Char) (s : String) : List String :=
  splitCharGo sep s.data []

/-- A Python `str.strip` whitespace character (the ASCII ones). -/
def isPySpace (c : Char) : Bool :=
  c == ' ' || c == '\t' || c == '\n' || c == '\r' ||
    c == Char.ofNat 11 || c == Char.ofNat 12

/-- Python `s.strip()` on ASCII text. -/
def pyStrip (s : String) : String :=
  String.mk (((s.data.dropWhile isPySpace).reverse.dropWhile isPySpace).reverse)

/-- Python `s.startswith(p)`. -/
def pyStartsWith (s p : String) : Bool :=
  startsWithL s.data p.data

/-- Drop the first `n` characters (Python `s[n:]`). -/
def strDrop (s : String) (n : Nat) : String :=
  String.mk (s.data.drop n)

/-- Tokenization of a statement line.  Models `shlex.split` on the inputs
reached here, which contain no quoting or escapes (whitespace word
splitting). -/
def shlexSplitSimple (s : String) : List String :=
  (splitOnChar ' ' s).filter (fun t => t ≠ "")

/-- Python `a.split(sep, 1)` when `sep in a`: split at the first
occurrence; `none` when the character is absent. -/
def splitAtCharGo (sep : Char) : List Char → Option (List Char × List Char)
  | [] => none
  | c :: cs =>
    if c = sep then some ([], cs)
    else (splitAtCharGo sep cs).map (fun p => (c :: p.1, p.2))

def splitEq (s : String) : Option (String × String) :=
  (splitAtCharGo '=' s.data).map (fun p => (String.mk p.1, String.mk p.2))

/-- `_split_kv(args)` (pf.py:184-192): positional arguments and a dict of
`k=v` arguments, later duplicates overwriting earlier ones. -/
def _split_kv (args : List String) : List String × List (String × String) :=
  args.foldl
    (fun acc a =>
      match splitEq a with
      | some kv => (acc.1, dictSet acc.2 kv.1 kv.2)
      | none => (acc.1 ++ [a], acc.2))
    ([], [])

/-- A character `shlex.quote` leaves unquoted: word characters and
`@ % + = : , . - ` and the path separator. -/
def shSafeChar (c : Char) : Bool :=
  c.isAlphanum || c == '_' || c == '@' || c == '%' || c == '+' || c == '=' ||
    c == ':' || c == ',' || c == '.' || c == '/' || c == '-'

/-- Python `shlex.quote`. -/
def shQuote (s : String) : String :=
  if s = "" then "\x27\x27"
  else if s.data.all shSafeChar then s
  else "\x27" ++ pyReplace s "\x27" "\x27\"\x27\"\x27" ++ "\x27"

/-- Python truthiness of an optional string (`if mode:`): present and
non-empty. -/
def optTruthy (o : Option String) : Bool :=
  match o with
  | some s => s ≠ ""
  | none => false

/-- Result of executing one statement line: the returned exit code, and the
list of external commands run with the exit status each process reported. -/
structure ExecOut where
  rc : Nat
  runs : List (String × Nat)
deriving DecidableEq, Repr

/-- The verb dispatch of `_exec_line_fabric` (pf.py:216-317) after
interpolation and tokenization.  `oracle cmd` is the exit status of the
external process for command line `cmd`; every `run(...)` in the source
becomes an `oracle` call recorded in `runs`.  The `remote` flag mirrors
`c is None`: the two `copy` branches differ only in the transfer mechanism
(`shutil.copyfile` / `c.put`, not external processes) and both follow up
with the same optional chmod/chown commands and a hard-coded `return 0`.
Sudo wrapping and the task-env export prefix alter the command string but
not the exit-code plumbing; they are modeled as disabled. -/
def execParts (oracle : String → Nat) (remote : Bool) (parts : List String) :
    Except String ExecOut :=
  match parts with
  | [] => .ok ⟨0, []⟩
  | op :: args =>
    if op = "shell" then
      let cmd := String.intercalate " " args
      if cmd = "" then .error "shell needs a command"
      else .ok ⟨oracle cmd, [(cmd, oracle cmd)]⟩
    else if op = "packages" then
      match args with
      | action :: names =>
        if names = [] then .error "packages install/remove <names...>"
        else if action = "install" then
          let cmd := String.intercalate " " ("apt -y install" :: names)
          .ok ⟨oracle cmd, [(cmd, oracle cmd)]⟩
        else if action = "remove" then
          let cmd := String.intercalate " " ("apt -y remove" :: names)
          .ok ⟨oracle cmd, [(cmd, oracle cmd)]⟩
        else .error ("Unknown packages action: " ++ action)
      | [] => .error "packages install/remove <names...>"
    else if op = "service" then
      match args with
      | action :: name :: _ =>
        if action = "start" ∨ action = "stop" ∨ action = "enable" ∨
            action = "disable" ∨ action = "restart" then
          let cmd := "systemctl " ++ action ++ " " ++ shQuote name
          .ok ⟨oracle cmd, [(cmd, oracle cmd)]⟩
        else .error ("Unknown service action: " ++ action)
      | _ => .error "service <start|stop|enable|disable|restart> <name>"
    else if op = "directory" then
      let pk := _split_kv args
      match pk.1 with
      | [] => .error "directory <path> [mode=0755]"
      | path :: _ =>
        let mode := lookupA pk.2 "mode"
        let mk := "mkdir -p " ++ shQuote path
        let rc := oracle mk
        if rc = 0 ∧ optTruthy mode then
          let ch := "chmod " ++ shQuote (mode.getD "") ++ " " ++ shQuote path
          .ok ⟨oracle ch, [(mk, rc), (ch, oracle ch)]⟩
        else .ok ⟨rc, [(mk, rc)]⟩
    else if op = "copy" then
      let pk := _split_kv args
      match pk.1 with
      | _local :: dest :: _ =>
        let mode := lookupA pk.2 "mode"
        let owner := lookupA pk.2 "user"
        let group := lookupA pk.2 "group"
        let chmodRuns :=
          if optTruthy mode then
            let ch := "chmod " ++ shQuote (mode.getD "") ++ " " ++ shQuote dest
            [(ch, oracle ch)]
          else []
        let chownRuns :=
          if optTruthy owner || optTruthy group then
            let og := owner.getD "" ++ ":" ++ group.getD ""
            let co := "chown " ++ og ++ " " ++ shQuote dest
            [(co, oracle co)]
          else []
        .ok ⟨0, chmodRuns ++ chownRuns⟩
      | _ => .error "copy <local> <remote> [mode=0644] [user=...] [group=...]"
    else if op = "describe" then .ok ⟨0, []⟩
    else if op = "env" then .ok ⟨0, []⟩
    else .error ("Unknown verb: " ++ op)

/-- `_exec_line_fabric` (pf.py:216-317): interpolate the line against the
merged scope, tokenize, and dispatch on the verb. -/
def _exec_line_fabric (oracle : String → Nat) (remote : Bool)
    (osenv : List (String × String)) (line : String)
    (params taskEnv : List (String × String)) : Except String ExecOut :=
  execParts oracle remote (shlexSplitSimple (_interpolate osenv line params taskEnv))

/-- Result of one statement delegation: the exit code `_exec_line_fabric`
returned, or the exception it raised. -/
inductive ExecRes where
  | code (rc : Nat)
  | exn (msg : String)
deriving DecidableEq, Repr

/-- The statement executor as seen by `run_host`: line, params, task env. -/
abbrev Executor :=
  String → List (String × String) → List (String × String) → ExecRes

/-- `ExecRes` view of the modeled `_exec_line_fabric`. -/
def fabricExecutor (oracle : String → Nat) (remote : Bool)
    (osenv : List (String × String)) : Executor :=
  fun line params te =>
    match _exec_line_fabric oracle remote osenv line params te with
    | .ok o => .code o.rc
    | .error e => .exn e

/-- One entry of `selected` (pf.py:442): task name, its lines, its params. -/
structure Sel where
  name : String
  lines : List String
  params : List (String × String)
deriving Repr

/-- The `env KEY=VAL ...` handling in `run_host`'s loop (pf.py:465-470):
each token with an `=` assigns into `task_env`, the value interpolated
against params and the task env built so far. -/
def applyEnvTokens (osenv params : List (String × String))
    (te : List (String × String)) (toks : List String) :
    List (String × String) :=
  toks.foldl
    (fun te tok =>
      match splitEq tok with
      | some kv => dictSet te kv.1 (_interpolate osenv kv.2 params te)
      | none => te)
    te

/-- Outcome of the statement loop of one task. -/
structure LinesOut where
  executed : List String
  taskEnv : List (String × String)
  rc : Nat
  early : Bool
deriving Repr

/-- Outcome of the task loop over `selected`. -/
structure TasksOut where
  executed : List String
  rc : Nat
  early : Bool
deriving Repr

/-- Outcome of `run_host` on one target: the returned code, the statement
lines that were delegated to the executor, and how many times the session
close was invoked. -/
structure HostOut where
  rc : Nat
  executed : List String
  closed : Nat
deriving DecidableEq, Repr

/-- The inner statement loop of `run_host` (pf.py:463-478): `env ` lines
update `task_env` and continue; other lines go to the executor; a non-zero
code or an exception returns immediately (`early = true`). -/
def runLines (osenv : List (String × String)) (ex : Executor)
    (params : List (String × String)) :
    List String → List (String × String) → Nat → LinesOut
  | [], te, rc => ⟨[], te, rc, false⟩
  | ln :: rest, te, rc =>
    if pyStartsWith (pyStrip ln) "env " then
      runLines osenv ex params rest
        (applyEnvTokens osenv params te ((shlexSplitSimple (pyStrip ln)).drop 1)) rc
    else
      match ex ln params te with
      | .exn _ => ⟨[ln], te, 1, true⟩
      | .code c =>
        if c ≠ 0 then ⟨[ln], te, c, true⟩
        else
          let r := runLines osenv ex params rest te c
          ⟨ln :: r.executed, r.taskEnv, r.rc, r.early⟩

/-- The task loop of `run_host` (pf.py:460-478): each task starts with an
empty `task_env`; an early return inside a task aborts the remaining tasks. -/
def runTasks (osenv : List (String × String)) (ex : Executor) :
    List Sel → Nat → TasksOut
  | [], rc => ⟨[], rc, false⟩
  | t :: ts, rc =>
    let r := runLines osenv ex t.params t.lines [] rc
    if r.early then ⟨r.executed, r.rc, true⟩
    else
      let r2 := runTasks osenv ex ts r.rc
      ⟨r.executed ++ r2.executed, r2.rc, r2.early⟩

/-- `run_host` (pf.py:445-481).  `remote` is whether the target parsed to a
remote spec (a `Connection` object, `c ≠ None`); `openOk` is whether
`c.open()` succeeded.  The statement `return rc` inside the loop and the
`return 1` of the exception handler leave the function before the trailing
`c.close()`, which runs only after the loop completes normally. -/
def run_host (osenv : List (String × String)) (ex : Executor)
    (remote openOk : Bool) (selected : List Sel) : HostOut :=
  if remote ∧ ¬ openOk then ⟨1, [], 0⟩
  else
    let r := runTasks osenv ex selected 0
    if r.early then ⟨r.rc, r.executed, 0⟩
    else ⟨r.rc, r.executed, if remote then 1 else 0⟩

/-- The per-target boundary of the dispatcher loop (pf.py:486-492):
`fut.result()` either returns the worker's code or raises; an exception is
logged and replaced by code 1. -/
def toRc (r : Except String Nat) : Nat :=
  match r with
  | .ok rc => rc
  | .error _ => 1

/-- The aggregation loop of `main` (pf.py:483-495):
`rc_total = rc_total or rc` over the per-target outcomes in completion
order. -/
def rc_total (outcomes : List (Except String Nat)) : Nat :=
  outcomes.foldl (fun acc r => if acc ≠ 0 then acc else toRc r) 0

/-- A value of `ENV_MAP` (pf.py:32-36): a comma-separated string or a list
of host strings.  (`_normalize_hosts` also recurses into nested lists; the
configured table contains none.) -/
inductive EnvHosts where
  | str (s : String)
  | list (l : List String)

/-- `_normalize_hosts` on one string: split on commas, strip, drop empties. -/
def _normalize_hosts_str (s : String) : List String :=
  ((splitOnChar ',' s).map pyStrip).filter (fun t => t ≠ "")

/-- `_normalize_hosts(spec)` (pf.py:156-166). -/
def _normalize_hosts (spec : EnvHosts) : List String :=
  match spec with
  | .str s => _normalize_hosts_str s
  | .list l => l.flatMap _normalize_hosts_str

/-- `_merge_env_hosts(env_names)` (pf.py:168-175): unknown env names warn
and are skipped. -/
def _merge_env_hosts (envMap : List (String × EnvHosts))
    (envNames : List String) : List String :=
  envNames.flatMap
    (fun n =>
      match (envMap.find? (fun p => p.1 == n)).map (fun p => p.2) with
      | none => []
      | some v => _normalize_hosts v)

/-- `_dedupe_preserve_order` (pf.py:177-181). -/
def dedupeGo (seen : List String) : List String → List String
  | [] => []
  | x :: xs =>
    if x ∈ seen then dedupeGo seen xs else x :: dedupeGo (x :: seen) xs

def _dedupe_preserve_order (items : List String) : List String :=
  dedupeGo [] items

/-- The host-resolution step of `main` (pf.py:406-410): merge env hosts and
explicit host specs, dedupe, and fall back to the single local target. -/
def resolveHosts (envMap : List (String × EnvHosts))
    (envNames hostSpecs : List String) : List String :=
  let env_hosts := _merge_env_hosts envMap envNames
  let merged_hosts := _dedupe_preserve_order (env_hosts ++ hostSpecs)
  if merged_hosts = [] then ["@local"] else merged_hosts

/-- Result of `_parse_host` (pf.py:194-199). -/
inductive ParsedHost where
  | localhost
  | remote (user : Option String) (host : String) (port : Option Nat)
deriving DecidableEq, Repr

/-- Python `s.split(c, 1)` when `c in s`: split at the first occurrence. -/
def splitOnceChar (c : Char) (s : String) : Option (String × String) :=
  (splitAtCharGo c s.data).map (fun p => (String.mk p.1, String.mk p.2))

/-- `_parse_host(h, default_user, default_port)` (pf.py:194-199); `none`
models the `ValueError` of `int(port)` on a non-numeric port. -/
def _parse_host (h : String) (default_user default_port : Option String) :
    Option ParsedHost :=
  if h = "@local" then some .localhost
  else
    let up :=
      match splitOnceChar '@' h with
      | some p => (some p.1, p.2)
      | none => (default_user, h)
    let hp :=
      match splitOnceChar ':' up.2 with
      | some p => (p.1, some p.2)
      | none => (up.2, default_port)
    match hp.2 with
    | none => some (.remote up.1 hp.1 none)
    | some p =>
      if p = "" then some (.remote up.1 hp.1 none)
      else
        match p.toNat? with
        | some n => some (.remote up.1 hp.1 (some n))
        | none => none

/-- `os.path.isabs` for POSIX paths. -/
def isAbsPath (p : String) : Bool := pyStartsWith p "/"

/-- `os.path.join(base, p)` for a relative `p`. -/
def joinPath (base p : String) : String :=
  if base = "" then p
  else if base.data.getLast? = some '/' then base ++ p
  else base ++ "/" ++ p

/-- `os.path.normpath` for POSIX paths: drop empty and `.` components,
resolve `..` textually (kept at the front of a relative path, dropped at
the root of an absolute one).  The CPython special case for a leading
double slash is not exercised by the repository's paths. -/
def normpath (p : String) : String :=
  let isAbs := isAbsPath p
  let comps := (splitOnChar '/' p).filter (fun c => !(c == "" || c == "."))
  let stack := comps.foldl
    (fun (st : List String) c =>
      if c = ".." then
        match st with
        | [] => if isAbs then [] else [c]
        | x :: rest => if x = ".." then c :: st else rest
      else c :: st)
    []
  let body := String.intercalate "/" stack.reverse
  if isAbs then "/" ++ body else if body = "" then "." else body

/-- `os.path.dirname` for POSIX paths: everything up to the last `/`, with
trailing slashes stripped unless the head is all slashes. -/
def dirname (p : String) : String :=
  match p.data.reverse.findIdx? (fun c => c == '/') with
  | none => ""
  | some j =>
    let head := p.data.take (p.data.length - j)
    if head.all (fun c => c == '/') then String.mk head
    else String.mk ((head.reverse.dropWhile (fun c => c == '/')).reverse)

/-- The filesystem as the loader sees it: resolved path to file content. -/
abbrev FS := List (String × String)

def fsExists (fs : FS) (p : String) : Bool :=
  (fs.find? (fun e => e.1 == p)).isSome

def fsRead (fs : FS) (p : String) : String :=
  ((fs.find? (fun e => e.1 == p)).map (fun e => e.2)).getD ""

/-- Python `s.splitlines()` for `\n`-separated text: no trailing empty
line for text ending in a newline, and no lines at all for empty text. -/
def pySplitlines (s : String) : List String :=
  if s = "" then []
  else
    let l := splitOnChar '\n' s
    if l.getLast? = some "" then l.dropLast else l

def endsWithNl (s : String) : Bool := s.data.getLast? = some '\n'

/-- The return expression of `_expand_includes_from_text` (pf.py:111):
join the output lines and add a final newline unless the (nonempty) output
already ends with one. -/
def joinExpanded (out : List String) : String :=
  String.intercalate "\n" out ++
    (match out.getLast? with
     | none => ""
     | some last => if endsWithNl last then "" else "\n")

/-- The path resolution of an include directive (pf.py:96-97). -/
def resolveInclude (baseDir incPath : String) : String :=
  normpath (if isAbsPath incPath then incPath else joinPath baseDir incPath)

/-- Result of expanding a line list: the produced output lines, the final
visited set, the files read and expanded (in order), and the include paths
warned about as missing (in order). -/
structure ExpandOut where
  out : List String
  visited : List String
  reads : List String
  warns : List String
deriving DecidableEq, Repr

/-- `_expand_includes_from_text` (pf.py:77-111) over the split lines of the
text.  The `visited` set is threaded through (the source mutates one set in
place); an included file's expansion is joined back into a single output
element between begin/end marker comments, exactly as the source appends
`inc_expanded` as one string.  One unit of `fuel` is consumed per line
processed, so the recursion is structural; `none` reports fuel exhaustion
and is never returned once `fuel` exceeds the finite bound
`lines.length + fsBudget fs visited` (see the C7 theorem), which is the
formal content of cycle-safe termination. -/
def expandLines (fs : FS) :
    Nat → List String → String → List String → Bool → Option ExpandOut
  | _, [], _, visited, _ => some ⟨[], visited, [], []⟩
  | 0, _ :: _, _, _, _ => none
  | fuel + 1, line :: rest, baseDir, visited, insideTask =>
    let stripped := pyStrip line
    if pyStartsWith stripped "task " then
      (expandLines fs fuel rest baseDir visited true).map
        (fun o => { o with out := line :: o.out })
    else if stripped = "end" then
      (expandLines fs fuel rest baseDir visited false).map
        (fun o => { o with out := line :: o.out })
    else if !insideTask && pyStartsWith stripped "include " then
      let toks := shlexSplitSimple stripped
      if 2 ≤ toks.length then
        let incFull := resolveInclude baseDir (toks.getD 1 "")
        if incFull ∈ visited then
          expandLines fs fuel rest baseDir visited insideTask
        else if fsExists fs incFull = false then
          (expandLines fs fuel rest baseDir visited insideTask).map
            (fun o => { o with warns := incFull :: o.warns })
        else
          match expandLines fs fuel (pySplitlines (fsRead fs incFull))
              (dirname incFull) (incFull :: visited) false with
          | none => none
          | some sub =>
            match expandLines fs fuel rest baseDir sub.visited insideTask with
            | none => none
            | some r =>
              some ⟨("# --- begin include: " ++ incFull ++ " ---") ::
                      joinExpanded sub.out ::
                      ("# --- end include: " ++ incFull ++ " ---") :: r.out,
                    r.visited,
                    incFull :: (sub.reads ++ r.reads),
                    sub.warns ++ r.warns⟩
      else
        (expandLines fs fuel rest baseDir visited insideTask).map
          (fun o => { o with out := line :: o.out })
    else
      (expandLines fs fuel rest baseDir visited insideTask).map
        (fun o => { o with out := line :: o.out })

/-- `_expand_includes_from_text(text, base_dir, visited)` (pf.py:77-111)
at the string level. -/
def _expand_includes_from_text (fs : FS) (fuel : Nat) (text baseDir : String)
    (visited : List String) : Option (String × List String) :=
  (expandLines fs fuel (pySplitlines text) baseDir visited false).map
    (fun o => (joinExpanded o.out, o.visited))

/-- The fuel needed for the files not yet visited: one unit per line of
each not-yet-visited path of the filesystem, plus one per file.  Expanding
an include moves its path into `visited`, so this bound strictly shrinks —
the measure behind cycle-safe termination. -/
def fsBudget (fs : FS) (visited : List String) : Nat :=
  (((fs.map (fun e => e.1)).filter (fun p => ¬ p ∈ visited)).map
    (fun p => (pySplitlines (fsRead fs p)).length + 1)).sum

/-- A task of the line-oriented DSL (pf.py:66-71). -/
structure PTask where
  lines : List String
  description : Option String
deriving DecidableEq, Repr

/-- Python `tasks[name] = task`: replace in place, else append. -/
def upsertTask (tasks : List (String × PTask)) (name : String) (t : PTask) :
    List (String × PTask) :=
  if (tasks.find? (fun p => p.1 == name)).isSome then
    tasks.map (fun p => if p.1 == name then (name, t) else p)
  else tasks ++ [(name, t)]

/-- Store the task under construction into the catalog.  (The source stores
the object at header time and mutates it afterwards; flushing the finished
object at the next boundary is observationally the same.) -/
def flushCur (tasks : List (String × PTask)) (cur : Option (String × PTask)) :
    List (String × PTask) :=
  match cur with
  | none => tasks
  | some nt => upsertTask tasks nt.1 nt.2

/-- The loop of `parse_pfyfile_text` (pf.py:122-140). -/
def parseGo :
    List String → List (String × PTask) → Option (String × PTask) →
      Except String (List (String × PTask))
  | [], tasks, cur => .ok (flushCur tasks cur)
  | raw :: rest, tasks, cur =>
    let line := pyStrip raw
    if line = "" then parseGo rest tasks cur
    else if pyStartsWith line "#" then parseGo rest tasks cur
    else if pyStartsWith line "task " then
      let name := pyStrip (strDrop line 5)
      if name = "" then .error "Task name missing."
      else parseGo rest (flushCur tasks cur) (some (name, ⟨[], none⟩))
    else if line = "end" then parseGo rest (flushCur tasks cur) none
    else
      match cur with
      | none => parseGo rest tasks cur
      | some nt =>
        if pyStartsWith line "describe " then
          match nt.2.description with
          | none =>
            parseGo rest tasks
              (some (nt.1, { nt.2 with description := some (pyStrip (strDrop line 9)) }))
          | some _ => parseGo rest tasks cur
        else
          parseGo rest tasks (some (nt.1, { nt.2 with lines := nt.2.lines ++ [line] }))

/-- `parse_pfyfile_text(text)` (pf.py:122-140): the task catalog, or the
`ValueError` the function raises. -/
def parse_pfyfile_text (text : String) : Except String (List (String × PTask)) :=
  parseGo (pySplitlines text) [] none

/-- The option bag of a `sync` statement (pf_parser.py:140-169): string
values come from quoted tokens, flags are booleans, `excludes` is an array.
`verbose` is absent-or-set because `_execute_sync` defaults it to true. -/
structure SyncOpts where
  src : Option String := none
  dest : Option String := none
  host : Option String := none
  user : Option String := none
  port : Option String := none
  excludes : List String := []
  exclude_file : Option String := none
  delete : Bool := false
  dry : Bool := false
  verbose : Option Bool := none

/-- Numeric value of a digit string (`int(port)` for `port.isdigit()`). -/
def digitsToNat (l : List Char) : Nat :=
  l.foldl (fun acc c => acc * 10 + (c.toNat - 48)) 0

/-- `_execute_sync(opts, env)` (pf_parser.py:323-401) up to the point the
rsync command line is handed to the shell.  Returns `.ok none` for the
early `rsync not found` return, `.error` for the `ValueError`s the function
raises (missing src/dest; `int(port)` on a truthy non-numeric port), and
otherwise the constructed argument vector. -/
def _execute_sync (rsyncOnPath : Bool) (o : SyncOpts)
    (env : List (String × String)) : Except String (Option (List String)) :=
  if rsyncOnPath = false then .ok none
  else if !optTruthy o.src || !optTruthy o.dest then
    .error "sync requires src and dest"
  else
    let src := _substitute_vars (o.src.getD "") env
    let dest_path := _substitute_vars (o.dest.getD "") env
    let excludes := o.excludes.map (fun x => _substitute_vars x env)
    let exclude_file := o.exclude_file.map (fun x => _substitute_vars x env)
    let verbose := o.verbose.getD true
    let cmd := ["rsync", "-a"]
      ++ (if verbose then ["-v"] else [])
      ++ (if o.dry then ["-n"] else [])
      ++ (if o.delete then ["--delete"] else [])
      ++ excludes.flatMap (fun pat => ["--exclude", pat])
      ++ (match exclude_file with
          | some f => if f ≠ "" then ["--exclude-from", f] else []
          | none => [])
    if optTruthy o.host then
      let host := o.host.getD ""
      match o.port with
      | some p =>
        if p ≠ "" && !(p.data.all Char.isDigit) then .error "invalid port"
        else
          let sshCmd :=
            if p ≠ "" && digitsToNat p.data ≠ 0 then
              "ssh -p " ++ toString (digitsToNat p.data)
            else "ssh"
          let pfx := if optTruthy o.user then o.user.getD "" ++ "@" ++ host else host
          .ok (some (cmd ++ ["-e", sshCmd] ++
            [shQuote src, shQuote (pfx ++ ":" ++ dest_path)]))
      | none =>
        let pfx := if optTruthy o.user then o.user.getD "" ++ "@" ++ host else host
        .ok (some (cmd ++ ["-e", "ssh"] ++
          [shQuote src, shQuote (pfx ++ ":" ++ dest_path)]))
    else
      .ok (some (cmd ++ [shQuote src, shQuote dest_path]))

/- ===================== Theorems ===================== -/

theorem takeWhile_word_append (name rest : List Char)
    (hw : ∀ c ∈ name, isWordChar c = true)
    (hr : ∀ c, rest.head? = some c → isWordChar c = false) :
    (name ++ rest).takeWhile isWordChar = name := by
  induction name with
  | nil =>
    cases rest with
    | nil => rfl
    | cons c cs =>
      simp only [List.nil_append, List.takeWhile_cons, hr c rfl]
      simp
  | cons a name ih =>
    have ha : isWordChar a = true := hw a (List.mem_cons_self a name)
    simp only [List.cons_append, List.takeWhile_cons, ha]
    simp only [if_pos trivial]
    rw [ih (fun c hc => hw c (List.mem_cons_of_mem a hc))]

theorem dropWhile_word_append (name rest : List Char)
    (hw : ∀ c ∈ name, isWordChar c = true)
    (hr : ∀ c, rest.head? = some c → isWordChar c = false) :
    (name ++ rest).dropWhile isWordChar = rest := by
  induction name with
  | nil =>
    cases rest with
    | nil => rfl
    | cons c cs =>
      simp only [List.nil_append, List.dropWhile_cons, hr c rfl]
      simp
  | cons a name ih =>
    have ha : isWordChar a = true := hw a (List.mem_cons_self a name)
    simp only [List.cons_append, List.dropWhile_cons, ha]
    exact ih (fun c hc => hw c (List.mem_cons_of_mem a hc))

/-- The single-substitution step of one `re.sub` pass: at a `$name` use site
whose name run is maximal, the replacement value is emitted verbatim and the
scan continues after the occurrence, never inside the substituted value. -/
theorem interpGo_step (look : String → Option String) (lit name rest : List Char)
    (hlit : ∀ c ∈ lit, c ≠ '$')
    (hname : name ≠ [])
    (hw : ∀ c ∈ name, isWordChar c = true)
    (hr : ∀ c, rest.head? = some c → isWordChar c = false) :
    interpGo look (lit ++ '$' :: (name ++ rest)) =
      lit ++ (match look (String.mk name) with
              | some v => v.data
              | none => '$' :: name) ++ interpGo look rest := by
  induction lit with
  | nil =>
    rw [List.nil_append, List.nil_append]
    rw [interpGo]
    have ht : (name ++ rest).takeWhile isWordChar = name :=
      takeWhile_word_append name rest hw hr
    have hd : (name ++ rest).dropWhile isWordChar = rest :=
      dropWhile_word_append name rest hw hr
    simp only [if_pos rfl, ht, hd, dif_neg hname]
    simp
  | cons a lit ih =>
    have ha : a ≠ '$' := hlit a (List.mem_cons_self a lit)
    rw [List.cons_append, interpGo]
    simp only [if_neg ha]
    rw [ih (fun c hc => hlit c (List.mem_cons_of_mem a hc))]
    simp

/-- Lifting `interpGo_step` to `_interpolate` at the `String` level. -/
theorem interpolate_step (osenv params extraEnv : List (String × String))
    (lit name rest : String)
    (hlit : ∀ c ∈ lit.data, c ≠ '$')
    (hname : name.data ≠ [])
    (hw : ∀ c ∈ name.data, isWordChar c = true)
    (hr : ∀ c, rest.data.head? = some c → isWordChar c = false) :
    _interpolate osenv (lit ++ "$" ++ name ++ rest) params extraEnv =
      lit ++ (mergedGet osenv extraEnv params name).getD ("$" ++ name) ++
        _interpolate osenv rest params extraEnv := by
  unfold _interpolate
  have hdata : (lit ++ "$" ++ name ++ rest).data
      = lit.data ++ '$' :: (name.data ++ rest.data) := by
    simp [String.data_append]
  rw [hdata, interpGo_step _ _ _ _ hlit hname hw hr]
  have hmk : name = String.mk name.data := rfl
  apply String.ext
  simp only [String.data_append]
  cases hlook : mergedGet osenv extraEnv params name with
  | some v =>
    rw [hmk] at hlook
    simp [hlook]
  | none =>
    rw [hmk] at hlook
    simp [hlook, String.data_append]

/-- C1: the spec claims a name bound both in the invocation parameters and
in the task-local `env` layer interpolates to the task-local value.  The
code merges `extra_env` first and `params` last (pf.py:56-59), so the
parameter value wins: interpolating `$x` with param `x=P` and task-local
`x=T` yields `P`, not `T`. -/
theorem c1_counterexample :
    _interpolate [] "$x" [("x", "P")] [("x", "T")] = "P" ∧ ("P" : String) ≠ "T" := by
  constructor
  · simp [_interpolate, interpGo, isWordChar, mergedGet, lookupA]
  · decide

/-- C1 (amended): for a name bound both in the task invocation parameters
and in the task-local declared environment, interpolation of a use of the
name returns the parameter value — the merge order of `_interpolate`
(pf.py:56-59) makes the parameter layer the most specific one, overriding
the task-local environment and the process environment. -/
theorem c1_param_layer_wins (osenv extraEnv params : List (String × String))
    (name v : String)
    (hname : name.data ≠ [])
    (hw : ∀ c ∈ name.data, isWordChar c = true)
    (hp : lookupA params name = some v) :
    _interpolate osenv ("$" ++ name) params extraEnv = v := by
  have h0 : ("$" ++ name : String) = "" ++ "$" ++ name ++ "" := by simp
  rw [h0, interpolate_step osenv params extraEnv "" name ""
    (by intro c hc; simp at hc) hname hw (by intro c hc; simp at hc)]
  have hm : mergedGet osenv extraEnv params name = some v := by
    simp [mergedGet, hp, Option.orElse]
  rw [hm]
  have he : _interpolate osenv "" params extraEnv = "" := by
    simp [_interpolate, interpGo]
  rw [he]
  simp

/-- Witness for C1 (amended) at a concrete input. -/
theorem c1_param_layer_wins_witness :
    _interpolate [] ("$" ++ "x") [("x", "P")] [("x", "T")] = "P" :=
  c1_param_layer_wins [] [("x", "T")] [("x", "P")] "x" "P"
    (by decide) (by decide) (by decide)

/-- C5: the spec claims both interpolators substitute each occurrence of the
original text exactly once and never re-scan substituted values.
`_substitute_vars` (pf_parser.py:315-321) applies one whole-text replacement
per binding in dict order, so a value substituted for an earlier binding is
re-scanned by every later binding: with env `a ↦ "$b", b ↦ "X"`, the claim
requires `"$b"` to appear verbatim in the output for input `"$a"`, but the
result is `"X"`. -/
theorem c5_counterexample :
    _substitute_vars "$a" [("a", "$b"), ("b", "X")] = "X" ∧
      ("X" : String) ≠ "$b" := by
  constructor
  · rfl
  · decide

/-- C5 (amended): pf.py's `_interpolate` substitutes each `$name` occurrence
of the original text exactly once, left to right, and never re-scans
substituted values — the replacement value appears verbatim in the output
(even if it contains `$other` tokens) and scanning continues strictly after
the occurrence.  pf_parser.py's `_substitute_vars`, by contrast, re-scans
substituted values (see `c5_counterexample`). -/
theorem c5_interpolate_single_pass (osenv params extraEnv : List (String × String))
    (lit name rest : String)
    (hlit : ∀ c ∈ lit.data, c ≠ '$')
    (hname : name.data ≠ [])
    (hw : ∀ c ∈ name.data, isWordChar c = true)
    (hr : ∀ c, rest.data.head? = some c → isWordChar c = false) :
    _interpolate osenv (lit ++ "$" ++ name ++ rest) params extraEnv =
      lit ++ (mergedGet osenv extraEnv params name).getD ("$" ++ name) ++
        _interpolate osenv rest params extraEnv :=
  interpolate_step osenv params extraEnv lit name rest hlit hname hw hr

/-- Witness for C5 (amended): the value bound to `a` contains the token
`$b`, itself bound in the scope, and is still emitted verbatim. -/
theorem c5_interpolate_single_pass_witness :
    _interpolate [] ("" ++ "$" ++ "a" ++ "") [("a", "$b"), ("b", "X")] [] =
      "" ++ (mergedGet [] [] [("a", "$b"), ("b", "X")] "a").getD ("$" ++ "a") ++
        _interpolate [] "" [("a", "$b"), ("b", "X")] [] :=
  c5_interpolate_single_pass [] [("a", "$b"), ("b", "X")] [] "" "a" ""
    (by intro c hc; simp at hc) (by decide) (by decide)
    (by intro c hc; simp at hc)

theorem sum_filter_mono (l : List String) (f : String → Nat) (p q : String → Bool)
    (h : ∀ x, p x = true → q x = true) :
    ((l.filter p).map f).sum ≤ ((l.filter q).map f).sum := by
  induction l with
  | nil => simp
  | cons x xs ih =>
    by_cases hp : p x = true
    · simp [List.filter_cons, hp, h x hp]
      omega
    · simp only [List.filter_cons, eq_false_of_ne_true hp, Bool.false_eq_true,
        if_false]
      by_cases hq : q x = true
      · simp only [hq, if_true, List.map_cons, List.sum_cons]
        omega
      · simp only [eq_false_of_ne_true hq, Bool.false_eq_true, if_false]
        exact ih

theorem sum_filter_remove (l : List String) (f : String → Nat) (p : String)
    (visited : List String) (hmem : p ∈ l) (hnv : ¬ p ∈ visited) :
    ((l.filter (fun x => ¬ x ∈ p :: visited)).map f).sum + f p ≤
      ((l.filter (fun x => ¬ x ∈ visited)).map f).sum := by
  induction l with
  | nil => cases hmem
  | cons x xs ih =>
    have hmono : ((xs.filter (fun x => ¬ x ∈ p :: visited)).map f).sum ≤
        ((xs.filter (fun x => ¬ x ∈ visited)).map f).sum := by
      refine sum_filter_mono xs f _ _ ?_
      intro y hy
      simp only [decide_eq_true_eq] at hy ⊢
      intro hmem2
      exact hy (List.mem_cons_of_mem p hmem2)
    simp only [List.filter_cons]
    by_cases hxp : x = p
    · subst hxp
      have e1 : (decide (¬ x ∈ x :: visited)) = false := by simp
      have e2 : (decide (¬ x ∈ visited)) = true := by simp [hnv]
      rw [e1, e2]
      simp only [Bool.false_eq_true, if_false, if_true, List.map_cons, List.sum_cons]
      omega
    · have hxs : p ∈ xs := by
        rcases List.mem_cons.mp hmem with h1 | h1
        · exact absurd h1.symm hxp
        · exact h1
      by_cases hxv : x ∈ visited
      · have e1 : (decide (¬ x ∈ p :: visited)) = false := by
          simp [List.mem_cons, hxv]
        have e2 : (decide (¬ x ∈ visited)) = false := by simp [hxv]
        rw [e1, e2]
        simp only [Bool.false_eq_true, if_false]
        exact ih hxs
      · have e1 : (decide (¬ x ∈ p :: visited)) = true := by
          simp [List.mem_cons, hxp, hxv]
        have e2 : (decide (¬ x ∈ visited)) = true := by simp [hxv]
        rw [e1, e2]
        simp only [if_true, List.map_cons, List.sum_cons]
        have := ih hxs
        omega

theorem fsBudget_mono (fs : FS) (v v' : List String)
    (hsub : ∀ x ∈ v, x ∈ v') : fsBudget fs v' ≤ fsBudget fs v := by
  refine sum_filter_mono _ _ _ _ ?_
  intro x hx
  simp only [decide_eq_true_eq] at hx ⊢
  intro hmem
  exact hx (hsub x hmem)

theorem fsBudget_decr (fs : FS) (p : String) (visited : List String)
    (hp : fsExists fs p = true) (hnv : ¬ p ∈ visited) :
    fsBudget fs (p :: visited) + ((pySplitlines (fsRead fs p)).length + 1) ≤
      fsBudget fs visited := by
  have hmem : p ∈ fs.map (fun e => e.1) := by
    rw [fsExists, Option.isSome_iff_exists] at hp
    rcases hp with ⟨e, he⟩
    have h1 := List.find?_some he
    have h2 := List.mem_of_find?_eq_some he
    simp only [beq_iff_eq] at h1
    rw [← h1]
    exact List.mem_map_of_mem (fun e => e.1) h2
  exact sum_filter_remove _ _ p visited hmem hnv

/-- Expansion only grows the visited set — by exactly the files read, each
of which was unvisited and present on the filesystem, and none of which is
read twice. -/
theorem expand_inv (fs : FS) :
    ∀ (fuel : Nat) (lines : List String) (baseDir : String) (visited : List String)
      (insideTask : Bool) (out : ExpandOut),
      expandLines fs fuel lines baseDir visited insideTask = some out →
      out.visited = out.reads.reverse ++ visited ∧
        (∀ p ∈ out.reads, ¬ p ∈ visited ∧ fsExists fs p = true) ∧
        out.reads.Nodup := by
  intro fuel
  induction fuel with
  | zero =>
    intro lines baseDir visited insideTask out h
    cases lines with
    | nil =>
      simp only [expandLines] at h
      cases h
      simp
    | cons l ls =>
      simp only [expandLines] at h
      exact Option.noConfusion h
  | succ n ih =>
    intro lines baseDir visited insideTask out h
    cases lines with
    | nil =>
      simp only [expandLines] at h
      cases h
      simp
    | cons line rest =>
      simp only [expandLines] at h
      by_cases c1 : pyStartsWith (pyStrip line) "task " = true
      · simp only [c1, if_true] at h
        obtain ⟨o, ho, hg⟩ := Option.map_eq_some'.mp h
        obtain ⟨hv, hf, hn⟩ := ih rest baseDir visited true o ho
        rw [← hg]
        exact ⟨hv, hf, hn⟩
      · simp only [eq_false_of_ne_true c1, Bool.false_eq_true, if_false] at h
        by_cases c2 : pyStrip line = "end"
        · simp only [c2, if_true, if_pos] at h
          obtain ⟨o, ho, hg⟩ := Option.map_eq_some'.mp h
          obtain ⟨hv, hf, hn⟩ := ih rest baseDir visited false o ho
          rw [← hg]
          exact ⟨hv, hf, hn⟩
        · rw [if_neg c2] at h
          by_cases c3 : (!insideTask && pyStartsWith (pyStrip line) "include ") = true
          · simp only [c3, if_true] at h
            by_cases c4 : 2 ≤ (shlexSplitSimple (pyStrip line)).length
            · rw [if_pos c4] at h
              by_cases c5 :
                  resolveInclude baseDir
                    ((shlexSplitSimple (pyStrip line)).getD 1 "") ∈ visited
              · rw [if_pos c5] at h
                exact ih rest baseDir visited insideTask out h
              · rw [if_neg c5] at h
                by_cases c6 :
                    fsExists fs
                      (resolveInclude baseDir
                        ((shlexSplitSimple (pyStrip line)).getD 1 "")) = false
                · simp only [c6, if_true, if_pos] at h
                  obtain ⟨o, ho, hg⟩ := Option.map_eq_some'.mp h
                  obtain ⟨hv, hf, hn⟩ := ih rest baseDir visited insideTask o ho
                  rw [← hg]
                  exact ⟨hv, hf, hn⟩
                · have hex : fsExists fs
                      (resolveInclude baseDir
                        ((shlexSplitSimple (pyStrip line)).getD 1 "")) = true := by
                    cases hb : fsExists fs
                        (resolveInclude baseDir
                          ((shlexSplitSimple (pyStrip line)).getD 1 "")) with
                    | false => exact absurd hb c6
                    | true => rfl
                  rw [if_neg c6] at h
                  split at h
                  · exact Option.noConfusion h
                  · split at h
                    · exact Option.noConfusion h
                    · rename_i s1 subv hsub s2 r hr
                      obtain ⟨hv1, hf1, hn1⟩ := ih _ _ _ _ _ hsub
                      obtain ⟨hv2, hf2, hn2⟩ := ih _ _ _ _ _ hr
                      cases h
                      refine ⟨?_, ?_, ?_⟩
                      · show r.visited = _
                        rw [hv2, hv1]
                        simp
                      · intro p hp
                        rcases List.mem_cons.mp hp with hp1 | hp1
                        · subst hp1
                          exact ⟨c5, hex⟩
                        · rcases List.mem_append.mp hp1 with hp2 | hp2
                          · obtain ⟨hfr, hfe⟩ := hf1 p hp2
                            exact ⟨fun hc => hfr (List.mem_cons_of_mem _ hc), hfe⟩
                          · obtain ⟨hfr, hfe⟩ := hf2 p hp2
                            refine ⟨fun hc => hfr ?_, hfe⟩
                            rw [hv1]
                            exact List.mem_append_right _ (List.mem_cons_of_mem _ hc)
                      · refine List.nodup_cons.mpr ⟨?_, ?_⟩
                        · intro hc
                          rcases List.mem_append.mp hc with hc1 | hc1
                          · exact (hf1 _ hc1).1 (List.mem_cons_self _ _)
                          · refine (hf2 _ hc1).1 ?_
                            rw [hv1]
                            exact List.mem_append_right _ (List.mem_cons_self _ _)
                        · refine List.Nodup.append hn1 hn2 ?_
                          intro a ha1 ha2
                          refine (hf2 a ha2).1 ?_
                          rw [hv1]
                          exact List.mem_append_left _
                            (List.mem_reverse.mpr ha1)
            · rw [if_neg c4] at h
              obtain ⟨o, ho, hg⟩ := Option.map_eq_some'.mp h
              obtain ⟨hv, hf, hn⟩ := ih rest baseDir visited insideTask o ho
              rw [← hg]
              exact ⟨hv, hf, hn⟩
          · simp only [eq_false_of_ne_true c3, Bool.false_eq_true, if_false] at h
            obtain ⟨o, ho, hg⟩ := Option.map_eq_some'.mp h
            obtain ⟨hv, hf, hn⟩ := ih rest baseDir visited insideTask o ho
            rw [← hg]
            exact ⟨hv, hf, hn⟩

/-- Cycle-safe termination: because expansion refuses to revisit a path,
the fuel `lines.length + fsBudget fs visited` suffices — expansion always
completes, even on cyclic include graphs. -/
theorem expand_total (fs : FS) :
    ∀ (fuel : Nat) (lines : List String) (baseDir : String) (visited : List String)
      (insideTask : Bool),
      lines.length + fsBudget fs visited < fuel →
      expandLines fs fuel lines baseDir visited insideTask ≠ none := by
  intro fuel
  induction fuel with
  | zero =>
    intro lines baseDir visited insideTask hlt
    exact absurd hlt (Nat.not_lt_zero _)
  | succ n ih =>
    intro lines baseDir visited insideTask hlt
    cases lines with
    | nil => simp [expandLines]
    | cons line rest =>
      have hrest : rest.length + fsBudget fs visited < n := by
        simp only [List.length_cons] at hlt
        omega
      simp only [expandLines]
      by_cases c1 : pyStartsWith (pyStrip line) "task " = true
      · simp only [c1, if_true, ne_eq, Option.map_eq_none']
        exact ih rest baseDir visited true hrest
      · simp only [eq_false_of_ne_true c1, Bool.false_eq_true, if_false]
        by_cases c2 : pyStrip line = "end"
        · simp only [c2, if_true, if_pos, ne_eq, Option.map_eq_none']
          exact ih rest baseDir visited false hrest
        · rw [if_neg c2]
          by_cases c3 : (!insideTask && pyStartsWith (pyStrip line) "include ") = true
          · simp only [c3, if_true]
            by_cases c4 : 2 ≤ (shlexSplitSimple (pyStrip line)).length
            · rw [if_pos c4]
              by_cases c5 :
                  resolveInclude baseDir
                    ((shlexSplitSimple (pyStrip line)).getD 1 "") ∈ visited
              · rw [if_pos c5]
                exact ih rest baseDir visited insideTask hrest
              · rw [if_neg c5]
                by_cases c6 :
                    fsExists fs
                      (resolveInclude baseDir
                        ((shlexSplitSimple (pyStrip line)).getD 1 "")) = false
                · simp only [c6, if_true, if_pos, ne_eq, Option.map_eq_none']
                  exact ih rest baseDir visited insideTask hrest
                · have hex : fsExists fs
                      (resolveInclude baseDir
                        ((shlexSplitSimple (pyStrip line)).getD 1 "")) = true := by
                    cases hb : fsExists fs
                        (resolveInclude baseDir
                          ((shlexSplitSimple (pyStrip line)).getD 1 "")) with
                    | false => exact absurd hb c6
                    | true => rfl
                  rw [if_neg c6]
                  have hdecr := fsBudget_decr fs
                    (resolveInclude baseDir
                      ((shlexSplitSimple (pyStrip line)).getD 1 "")) visited hex c5
                  have hsubfuel :
                      (pySplitlines (fsRead fs
                        (resolveInclude baseDir
                          ((shlexSplitSimple (pyStrip line)).getD 1 "")))).length +
                        fsBudget fs
                          (resolveInclude baseDir
                            ((shlexSplitSimple (pyStrip line)).getD 1 "") :: visited)
                        < n := by
                    simp only [List.length_cons] at hlt
                    omega
                  rcases hsub' : expandLines fs n
                      (pySplitlines (fsRead fs
                        (resolveInclude baseDir
                          ((shlexSplitSimple (pyStrip line)).getD 1 ""))))
                      (dirname (resolveInclude baseDir
                        ((shlexSplitSimple (pyStrip line)).getD 1 "")))
                      (resolveInclude baseDir
                        ((shlexSplitSimple (pyStrip line)).getD 1 "") :: visited)
                      false with _ | sub
                  · exact absurd hsub' (ih _ _ _ _ hsubfuel)
                  · simp only [hsub']
                    obtain ⟨hv1, _, _⟩ := expand_inv fs n _ _ _ _ _ hsub'
                    have hmono : fsBudget fs sub.visited ≤
                        fsBudget fs
                          (resolveInclude baseDir
                            ((shlexSplitSimple (pyStrip line)).getD 1 "") :: visited) := by
                      refine fsBudget_mono fs _ _ ?_
                      intro x hx
                      rw [hv1]
                      exact List.mem_append_right _ hx
                    have hcontfuel : rest.length + fsBudget fs sub.visited < n := by
                      simp only [List.length_cons] at hlt
                      omega
                    rcases hr' : expandLines fs n rest baseDir sub.visited insideTask
                      with _ | r
                    · exact absurd hr' (ih _ _ _ _ hcontfuel)
                    · simp only [hr']
                      exact Option.noConfusion
            · rw [if_neg c4]
              simp only [ne_eq, Option.map_eq_none']
              exact ih rest baseDir visited insideTask hrest
          · simp only [eq_false_of_ne_true c3, Bool.false_eq_true, if_false, ne_eq,
              Option.map_eq_none']
            exact ih rest baseDir visited insideTask hrest

/-- C2: the spec claims every verb's returned exit code is zero iff every
external process it ran exited zero.  The `copy` verb violates this: both
its branches end in a hard-coded `return 0` (pf.py:301,308), discarding the
exit status of the follow-up chmod/chown commands.  Here the chmod process
exits 1 yet the executor returns 0. -/
theorem c2_counterexample :
    execParts (fun _ => 1) true ["copy", "f", "g", "mode=7"] =
      .ok ⟨0, [("chmod 7 g", 1)]⟩ ∧ (1 : Nat) ≠ 0 :=
  ⟨rfl, by decide⟩

/-- C2 (amended): for the shell, packages, service and directory verbs the
executor's returned exit code is zero iff every external process it ran
exited with status zero; the copy verb instead returns 0 unconditionally,
discarding failures of its follow-up chmod/chown steps (see
`c2_counterexample`). -/
theorem c2_rc_propagation (oracle : String → Nat) (remote : Bool) (op : String)
    (args : List String) (out : ExecOut)
    (hop : op = "shell" ∨ op = "packages" ∨ op = "service" ∨ op = "directory")
    (h : execParts oracle remote (op :: args) = .ok out) :
    out.rc = 0 ↔ ∀ p ∈ out.runs, p.2 = 0 := by
  rcases hop with h1 | h1 | h1 | h1 <;> subst h1
  · simp only [execParts] at h
    by_cases hc : String.intercalate " " args = "" <;> simp [hc] at h
    rcases h with ⟨rfl, rfl⟩
    simp
  · simp only [execParts] at h
    match args with
    | [] => simp at h
    | action :: names =>
      by_cases hn : names = [] <;> simp [hn] at h
      by_cases hi : action = "install" <;> simp [hi] at h
      · rcases h with ⟨rfl, rfl⟩; simp
      · by_cases hr : action = "remove" <;> simp [hr] at h
        rcases h with ⟨rfl, rfl⟩; simp
  · simp only [execParts] at h
    match args with
    | [] => simp at h
    | [_] => simp at h
    | action :: name :: tail =>
      by_cases ha : action = "start" ∨ action = "stop" ∨ action = "enable" ∨
          action = "disable" ∨ action = "restart" <;> simp [ha] at h
      rcases h with ⟨rfl, rfl⟩; simp
  · simp only [execParts] at h
    match hpk : (_split_kv args).1 with
    | [] => rw [hpk] at h; simp at h
    | path :: tail =>
      rw [hpk] at h
      by_cases hm : oracle ("mkdir -p " ++ shQuote path) = 0 ∧
          optTruthy (lookupA (_split_kv args).2 "mode") = true <;> simp only [hm] at h
      · simp at h
        rcases h with ⟨rfl, rfl⟩
        simp [hm.1]
      · simp at h
        rcases h with ⟨rfl, rfl⟩
        simp

/-- Witness for C2 (amended) at a concrete shell statement. -/
theorem c2_rc_propagation_witness :
    ((⟨0, [("echo hi", 0)]⟩ : ExecOut).rc = 0 ↔
      ∀ p ∈ (⟨0, [("echo hi", 0)]⟩ : ExecOut).runs, p.2 = 0) :=
  c2_rc_propagation (fun _ => 0) true "shell" ["echo", "hi"] ⟨0, [("echo hi", 0)]⟩
    (Or.inl rfl) rfl

theorem runLines_no_early (osenv : List (String × String)) (ex : Executor)
    (params : List (String × String))
    (hok : ∀ ln p te, ex ln p te = ExecRes.code 0) :
    ∀ (lines : List String) (te : List (String × String)) (rc : Nat),
      (runLines osenv ex params lines te rc).early = false := by
  intro lines
  induction lines with
  | nil => intro te rc; rfl
  | cons ln rest ih =>
    intro te rc
    rw [runLines]
    by_cases he : pyStartsWith (pyStrip ln) "env " = true
    · simp only [he, if_pos]
      exact ih _ _
    · simp only [eq_false_of_ne_true he]
      simp only [Bool.false_eq_true, if_false, hok ln params te]
      simp only [ne_eq, not_true_eq_false, if_neg, reduceIte]
      exact ih _ _

theorem runTasks_no_early (osenv : List (String × String)) (ex : Executor)
    (hok : ∀ ln p te, ex ln p te = ExecRes.code 0) :
    ∀ (selected : List Sel) (rc : Nat),
      (runTasks osenv ex selected rc).early = false := by
  intro selected
  induction selected with
  | nil => intro rc; rfl
  | cons t ts ih =>
    intro rc
    rw [runTasks]
    simp only [runLines_no_early osenv ex t.params hok, Bool.false_eq_true, if_false]
    exact ih _

/-- C3: the spec claims the session close runs exactly once on every exit
path of a target whose session opened, including failures.  The early
`return rc` (pf.py:475) and `return 1` (pf.py:478) leave `run_host` before
`c.close()` (pf.py:479-480): on a target whose only statement fails with
code 2, the close count is 0, not 1. -/
theorem c3_counterexample :
    (run_host [] (fun _ _ _ => ExecRes.code 2) true true
        [⟨"t", ["shell false"], []⟩]).closed = 0 ∧ (0 : Nat) ≠ 1 :=
  ⟨rfl, by decide⟩

/-- C3 (amended): for a remote target whose session opened, the session
close is invoked exactly once on the exit path where every statement
executes with code 0; on the exit path where a statement returns a non-zero
code, `run_host` returns without invoking close. -/
theorem c3_close_only_on_success :
    (∀ (osenv : List (String × String)) (ex : Executor) (selected : List Sel),
        (∀ ln p te, ex ln p te = ExecRes.code 0) →
        (run_host osenv ex true true selected).closed = 1) ∧
      (∀ (osenv : List (String × String)) (ex : Executor) (nm ln : String)
          (rest : List String) (params : List (String × String))
          (ts : List Sel) (c : Nat),
        pyStartsWith (pyStrip ln) "env " = false →
        ex ln params [] = ExecRes.code c → c ≠ 0 →
        (run_host osenv ex true true (⟨nm, ln :: rest, params⟩ :: ts)).closed = 0) := by
  constructor
  · intro osenv ex selected hok
    rw [run_host]
    simp only [not_true_eq_false, and_false, if_false, reduceIte]
    simp [runTasks_no_early osenv ex hok]
  · intro osenv ex nm ln rest params ts c henv hex hc
    rw [run_host]
    simp only [not_true_eq_false, and_false, if_false, reduceIte]
    rw [runTasks, runLines]
    simp [henv, hex, hc]

/-- Witness for C3 (amended): an all-success run closes once; a failing run
closes zero times. -/
theorem c3_close_only_on_success_witness :
    (run_host [] (fun _ _ _ => ExecRes.code 0) true true
        [⟨"t", ["shell true"], []⟩]).closed = 1 ∧
      (run_host [] (fun _ _ _ => ExecRes.code 3) true true
          [⟨"t", ["shell bad"], []⟩]).closed = 0 :=
  ⟨c3_close_only_on_success.1 [] (fun _ _ _ => ExecRes.code 0) _ (fun _ _ _ => rfl),
   c3_close_only_on_success.2 [] (fun _ _ _ => ExecRes.code 3) "t" "shell bad"
     [] [] [] 3 (by decide) rfl (by decide)⟩

theorem runLines_fail_fast (osenv : List (String × String)) (ex : Executor)
    (params : List (String × String)) (s : String) (post : List String) (c : Nat)
    (hs_env : pyStartsWith (pyStrip s) "env " = false)
    (hs : ex s params [] = ExecRes.code c) (hc : c ≠ 0) :
    ∀ (pre : List String),
      (∀ l ∈ pre, pyStartsWith (pyStrip l) "env " = false) →
      (∀ l ∈ pre, ex l params [] = ExecRes.code 0) →
      ∀ rc, runLines osenv ex params (pre ++ s :: post) [] rc =
        ⟨pre ++ [s], [], c, true⟩ := by
  intro pre
  induction pre with
  | nil =>
    intro _ _ rc
    rw [List.nil_append, runLines]
    simp [hs_env, hs, hc]
  | cons l pre ih =>
    intro henv hok rc
    rw [List.cons_append, runLines]
    simp only [henv l (List.mem_cons_self l pre), Bool.false_eq_true, if_false,
      hok l (List.mem_cons_self l pre)]
    simp only [ne_eq, not_true_eq_false, reduceIte]
    rw [ih (fun x hx => henv x (List.mem_cons_of_mem l hx))
      (fun x hx => hok x (List.mem_cons_of_mem l hx)) 0]
    simp

/-- C4: on a target, a task whose statement sequence is `pre` (all
succeeding), then a statement `s` failing with code `c ≠ 0`, then anything,
executes exactly `pre ++ [s]` — never any later statement of the task or of
any subsequent selected task — and the target's result is `c`. -/
theorem c4_fail_fast (osenv : List (String × String)) (ex : Executor)
    (nm : String) (params : List (String × String))
    (pre : List String) (s : String) (post : List String) (ts : List Sel) (c : Nat)
    (hpre_env : ∀ l ∈ pre, pyStartsWith (pyStrip l) "env " = false)
    (hpre : ∀ l ∈ pre, ex l params [] = ExecRes.code 0)
    (hs_env : pyStartsWith (pyStrip s) "env " = false)
    (hs : ex s params [] = ExecRes.code c) (hc : c ≠ 0) :
    (run_host osenv ex true true (⟨nm, pre ++ s :: post, params⟩ :: ts)).executed
        = pre ++ [s] ∧
      (run_host osenv ex true true (⟨nm, pre ++ s :: post, params⟩ :: ts)).rc = c := by
  rw [run_host]
  simp only [not_true_eq_false, and_false, if_false, reduceIte]
  rw [runTasks]
  rw [runLines_fail_fast osenv ex params s post c hs_env hs hc pre hpre_env hpre 0]
  simp

/-- Witness for C4 at a concrete three-statement task plus one later task. -/
theorem c4_fail_fast_witness :
    (run_host []
        (fun l _ _ => if l = "shell s2" then ExecRes.code 7 else ExecRes.code 0)
        true true
        [⟨"t1", ["shell s1"] ++ "shell s2" :: ["shell s3"], []⟩,
          ⟨"t2", ["shell s4"], []⟩]).executed = ["shell s1"] ++ ["shell s2"] ∧
      (run_host []
          (fun l _ _ => if l = "shell s2" then ExecRes.code 7 else ExecRes.code 0)
          true true
          [⟨"t1", ["shell s1"] ++ "shell s2" :: ["shell s3"], []⟩,
            ⟨"t2", ["shell s4"], []⟩]).rc = 7 :=
  c4_fail_fast []
    (fun l _ _ => if l = "shell s2" then ExecRes.code 7 else ExecRes.code 0)
    "t1" [] ["shell s1"] "shell s2" ["shell s3"] [⟨"t2", ["shell s4"], []⟩] 7
    (by intro l hl; simp at hl; subst hl; decide)
    (by intro l hl; simp at hl; subst hl; decide)
    (by decide) (by decide) (by decide)

theorem rc_total_go (outs : List (Except String Nat)) :
    ∀ acc, (outs.foldl (fun acc r => if acc ≠ 0 then acc else toRc r) acc = 0) ↔
      (acc = 0 ∧ ∀ o ∈ outs, toRc o = 0) := by
  induction outs with
  | nil => intro acc; simp
  | cons o outs ih =>
    intro acc
    rw [List.foldl_cons, ih]
    by_cases ha : acc = 0
    · simp [ha]
    · simp [ha]

/-- C6: the dispatcher's aggregate exit code (`rc_total = rc_total or rc`,
pf.py:493) is zero iff every target's result is zero, where a target whose
worker raised is assigned result 1 by the `except` arm of the per-target
boundary (pf.py:490-492) — an exception is converted, never propagated out
of the aggregation loop. -/
theorem c6_aggregate_or (outcomes : List (Except String Nat)) (msg : String) :
    (rc_total outcomes = 0 ↔ ∀ o ∈ outcomes, toRc o = 0) ∧
      toRc (.error msg) = 1 := by
  constructor
  · rw [rc_total, rc_total_go]
    simp
  · rfl

theorem expand_skip (fs : FS) (fuel : Nat) (line : String) (rest : List String)
    (baseDir : String) (visited : List String)
    (h1 : pyStartsWith (pyStrip line) "task " = false)
    (h2 : ¬ (pyStrip line = "end"))
    (h3 : pyStartsWith (pyStrip line) "include " = true)
    (h4 : 2 ≤ (shlexSplitSimple (pyStrip line)).length)
    (h5 : resolveInclude baseDir
      ((shlexSplitSimple (pyStrip line)).getD 1 "") ∈ visited) :
    expandLines fs (fuel + 1) (line :: rest) baseDir visited false =
      expandLines fs fuel rest baseDir visited false := by
  rw [expandLines]
  simp only [h1, h2, h3, h4, h5, Bool.false_eq_true, Bool.not_false, Bool.true_and,
    if_false, if_true, reduceIte]

theorem expand_missing (fs : FS) (fuel : Nat) (line : String) (rest : List String)
    (baseDir : String) (visited : List String)
    (h1 : pyStartsWith (pyStrip line) "task " = false)
    (h2 : ¬ (pyStrip line = "end"))
    (h3 : pyStartsWith (pyStrip line) "include " = true)
    (h4 : 2 ≤ (shlexSplitSimple (pyStrip line)).length)
    (h5 : ¬ resolveInclude baseDir
      ((shlexSplitSimple (pyStrip line)).getD 1 "") ∈ visited)
    (h6 : fsExists fs
      (resolveInclude baseDir ((shlexSplitSimple (pyStrip line)).getD 1 "")) = false) :
    expandLines fs (fuel + 1) (line :: rest) baseDir visited false =
      (expandLines fs fuel rest baseDir visited false).map
        (fun o => { o with
          warns := resolveInclude baseDir
            ((shlexSplitSimple (pyStrip line)).getD 1 "") :: o.warns }) := by
  rw [expandLines]
  simp only [h1, h2, h3, h4, h5, h6, Bool.false_eq_true, Bool.not_false,
    Bool.true_and, if_false, if_true, reduceIte]

/-- C7: during one load (a fixed filesystem and one growing visited set),
include expansion never expands the same resolved file path twice — the
files read are pairwise distinct and disjoint from the incoming visited set
— and this makes expansion terminate even on cyclic include graphs: fuel
`lines.length + fsBudget fs visited` always suffices.  An inclusion
directive whose resolved path is already visited is silently skipped
(expansion continues on the remaining lines with nothing added, no warning);
one naming a non-existent file records a warning for that path, drops the
directive, and loading continues. -/
theorem c7_include_expansion :
    (∀ (fs : FS) (fuel : Nat) (lines : List String) (baseDir : String)
        (visited : List String) (insideTask : Bool) (out : ExpandOut),
      expandLines fs fuel lines baseDir visited insideTask = some out →
      out.reads.Nodup ∧ ∀ p ∈ out.reads, ¬ p ∈ visited) ∧
    (∀ (fs : FS) (fuel : Nat) (lines : List String) (baseDir : String)
        (visited : List String) (insideTask : Bool),
      lines.length + fsBudget fs visited < fuel →
      expandLines fs fuel lines baseDir visited insideTask ≠ none) ∧
    (∀ (fs : FS) (fuel : Nat) (line : String) (rest : List String)
        (baseDir : String) (visited : List String),
      pyStartsWith (pyStrip line) "task " = false →
      ¬ (pyStrip line = "end") →
      pyStartsWith (pyStrip line) "include " = true →
      2 ≤ (shlexSplitSimple (pyStrip line)).length →
      resolveInclude baseDir
        ((shlexSplitSimple (pyStrip line)).getD 1 "") ∈ visited →
      expandLines fs (fuel + 1) (line :: rest) baseDir visited false =
        expandLines fs fuel rest baseDir visited false) ∧
    (∀ (fs : FS) (fuel : Nat) (line : String) (rest : List String)
        (baseDir : String) (visited : List String),
      pyStartsWith (pyStrip line) "task " = false →
      ¬ (pyStrip line = "end") →
      pyStartsWith (pyStrip line) "include " = true →
      2 ≤ (shlexSplitSimple (pyStrip line)).length →
      ¬ resolveInclude baseDir
        ((shlexSplitSimple (pyStrip line)).getD 1 "") ∈ visited →
      fsExists fs
        (resolveInclude baseDir
          ((shlexSplitSimple (pyStrip line)).getD 1 "")) = false →
      expandLines fs (fuel + 1) (line :: rest) baseDir visited false =
        (expandLines fs fuel rest baseDir visited false).map
          (fun o => { o with
            warns := resolveInclude baseDir
              ((shlexSplitSimple (pyStrip line)).getD 1 "") :: o.warns })) := by
  refine ⟨?_, ?_, ?_, ?_⟩
  · intro fs fuel lines baseDir visited insideTask out h
    obtain ⟨_, hf, hn⟩ := expand_inv fs fuel lines baseDir visited insideTask out h
    exact ⟨hn, fun p hp => (hf p hp).1⟩
  · intro fs fuel lines baseDir visited insideTask hlt
    exact expand_total fs fuel lines baseDir visited insideTask hlt
  · intro fs fuel line rest baseDir visited h1 h2 h3 h4 h5
    exact expand_skip fs fuel line rest baseDir visited h1 h2 h3 h4 h5
  · intro fs fuel line rest baseDir visited h1 h2 h3 h4 h5 h6
    exact expand_missing fs fuel line rest baseDir visited h1 h2 h3 h4 h5 h6

/-- Witness for C7: a one-file expansion (its read list is duplicate-free
and fresh), a sufficient-fuel run, a silently skipped already-visited
include, and a warned-and-dropped missing include, each concrete. -/
theorem c7_include_expansion_witness :
    ((["/b.pf"] : List String).Nodup ∧
      ∀ p ∈ (["/b.pf"] : List String), ¬ p ∈ ([] : List String)) ∧
    expandLines [("/b.pf", "shell b\n")] 4 ["include b.pf"] "/" [] false ≠ none ∧
    (expandLines [("/a.pf", "x")] (4 + 1) ["include a.pf"] "/" ["/a.pf"] false =
      expandLines [("/a.pf", "x")] 4 [] "/" ["/a.pf"] false) ∧
    (expandLines ([] : FS) (4 + 1) ["include a.pf"] "/" [] false =
      (expandLines ([] : FS) 4 [] "/" [] false).map
        (fun o => { o with warns := "/a.pf" :: o.warns })) := by
  refine ⟨?_, ?_, ?_, ?_⟩
  · exact c7_include_expansion.1 [("/b.pf", "shell b\n")] 3 ["include b.pf"] "/"
      [] false ⟨["# --- begin include: /b.pf ---", "shell b\n",
        "# --- end include: /b.pf ---"], ["/b.pf"], ["/b.pf"], []⟩ rfl
  · exact c7_include_expansion.2.1 [("/b.pf", "shell b\n")] 4 ["include b.pf"]
      "/" [] false (by decide)
  · refine c7_include_expansion.2.2.1 [("/a.pf", "x")] 4 "include a.pf" []
      "/" ["/a.pf"] (by decide) (by decide) (by decide) (by decide) ?_
    show "/a.pf" ∈ ["/a.pf"]
    exact List.mem_singleton.mpr rfl
  · refine c7_include_expansion.2.2.2 ([] : FS) 4 "include a.pf" [] "/" []
      (by decide) (by decide) (by decide) (by decide) ?_ rfl
    show ¬ "/a.pf" ∈ ([] : List String)
    simp

/-- C8: with options `{src: "a/", dest: "b/", host: "h", user: "u",
port: "22", delete: true}` (and rsync on the PATH), `_execute_sync` builds
exactly the vector `rsync -a -v --delete -e "ssh -p 22" a/ u@h:b/` —
archive always on, verbose defaulting to true, the delete flag, the ssh
transport option with the port, and the destination addressed as
`u@h:b/`; and a sync statement whose `src` or `dest` is absent raises the
fatal `sync requires src and dest` configuration error. -/
theorem c8_sync_vector :
    (_execute_sync true
        { src := some "a/", dest := some "b/", host := some "h",
          user := some "u", port := some "22", delete := true } [] =
      .ok (some ["rsync", "-a", "-v", "--delete", "-e", "ssh -p 22",
        "a/", "u@h:b/"])) ∧
    (∀ (o : SyncOpts) (env : List (String × String)),
      o.src = none ∨ o.dest = none →
      _execute_sync true o env = .error "sync requires src and dest") := by
  constructor
  · rfl
  · intro o env h
    rcases h with h | h <;>
      · rw [_execute_sync]
        simp [h, optTruthy]

/-- Witness for C8's error part: a sync statement with a dest but no src. -/
theorem c8_sync_vector_witness :
    _execute_sync true { dest := some "b/" } [] =
      .error "sync requires src and dest" :=
  c8_sync_vector.2 { dest := some "b/" } [] (Or.inl rfl)

/-- C9: the spec says a `task` directive with no name is a fatal parse
error, and pf.py:130 indeed contains `raise ValueError("Task name
missing.")` — but the header check `line.startswith("task ")` requires a
space after `task`, while `line.strip()` has removed all trailing
whitespace, so a nameless header can never match it and the raise is
unreachable.  A bare `task` line falls through and is silently ignored:
parsing the input `task\nshell echo hi\nend` succeeds with an empty
catalog instead of raising. -/
theorem c9_nameless_task_not_rejected :
    parse_pfyfile_text "task\nshell echo hi\nend" = .ok [] := rfl

/-- C10: when host resolution from the env names and explicit host specs
yields the empty list, the dispatcher substitutes the single local target
`@local` (pf.py:409-410), which `_parse_host` maps to the local machine. -/
theorem c10_empty_resolution_uses_local
    (envMap : List (String × EnvHosts)) (envNames hostSpecs : List String)
    (default_user default_port : Option String)
    (h : _dedupe_preserve_order
      (_merge_env_hosts envMap envNames ++ hostSpecs) = []) :
    resolveHosts envMap envNames hostSpecs = ["@local"] ∧
      _parse_host "@local" default_user default_port =
        some ParsedHost.localhost := by
  constructor
  · rw [resolveHosts]
    simp only [h, if_pos]
  · rfl

/-- Witness for C10: a run whose only env name is unknown (warned and
skipped) and with no explicit hosts. -/
theorem c10_empty_resolution_uses_local_witness :
    resolveHosts [] ["missing"] [] = ["@local"] ∧
      _parse_host "@local" none none = some ParsedHost.localhost :=
  c10_empty_resolution_uses_local [] ["missing"] [] none none rfl

end Pf
